import Mathlib

/-!
Shallow embedding of src/hid-libusb.c (pic32prog HID transaction engine).

The C file drives one request/response exchange with a USB HID endpoint:
`write_read` arms an asynchronous interrupt receive on a persistent
`libusb_transfer`, performs a synchronous control-transfer send, then spins
on `libusb_handle_events` until the completion callback `read_callback`
writes an outcome into the shared slot `nbytes_received`; a timeout outcome
restarts the whole attempt.  `hid_send_recv` wraps `write_read` and calls
`exit(-1)` on any negative result or on a length mismatch.  `hid_close`
frees the persistent transfer.

The environment (libusb) is modelled by a trace: each attempt carries the
result of its control-transfer send and the list of dispatch events its
wait loop consumes; a dispatch event carries the return code of
`libusb_handle_events` and, optionally, the completion callback delivery
(transfer status plus the bytes the transport placed in the transfer
buffer).  All mutable globals of the C file become fields of `EngState`,
together with instrumentation counters and an action log that record which
libusb calls were made and in which order.
-/

namespace HidLibusb

/-- libusb error code LIBUSB_ERROR_IO, used by the default branch of
read_callback. -/
def errIo : Int := -1

/-- libusb error code LIBUSB_ERROR_NO_DEVICE. -/
def errNoDevice : Int := -4

/-- libusb error code LIBUSB_ERROR_BUSY. -/
def errBusy : Int := -6

/-- libusb error code LIBUSB_ERROR_TIMEOUT. -/
def errTimeout : Int := -7

/-- libusb error code LIBUSB_ERROR_OVERFLOW. -/
def errOverflow : Int := -8

/-- libusb error code LIBUSB_ERROR_INTERRUPTED, stored by read_callback for
a cancelled transfer. -/
def errInterrupted : Int := -10

/-- The libusb transfer status delivered to the completion callback. -/
inductive TStatus
  | completed
  | cancelled
  | noDevice
  | timedOut
  | transferError
  | stall
  | overflowed
  deriving DecidableEq, Repr

/-- Observable libusb calls made by the engine, in program order. -/
inductive Action
  | allocT
  | freeT
  | submit
  | send
  | cancel
  | dispatch
  | retry
  deriving DecidableEq, Repr

/-- The mutable state of hid-libusb.c: the file-scope globals
(ctx, transfer, receive_buf, nbytes_received), the transfer buffer
(which write_read points at the reply area of the caller), plus
instrumentation: call counters, a double-submit detector for the
single-outstanding-receive invariant, and the ordered action log. -/
structure EngState where
  ctxOpen : Bool
  transferAllocated : Bool
  nbytes_received : Int
  receive_buf : List Nat
  reply : List Nat
  outstanding : Bool
  doubleSubmits : Nat
  submits : Nat
  sends : Nat
  cancels : Nat
  retries : Nat
  allocs : Nat
  frees : Nat
  log : List Action
  deriving DecidableEq, Repr

/-- The state right after a successful hid_init: context open, no transfer
allocated yet, outcome slot holding the sentinel 0, the 42-byte global
receive_buf zeroed, and the reply area of the caller given as `reply0`. -/
def initState (reply0 : List Nat) : EngState :=
  { ctxOpen := true
    transferAllocated := false
    nbytes_received := 0
    receive_buf := List.replicate 42 0
    reply := reply0
    outstanding := false
    doubleSubmits := 0
    submits := 0
    sends := 0
    cancels := 0
    retries := 0
    allocs := 0
    frees := 0
    log := [] }

/-- C memcpy(dst, src, n) with n = src.length: the first src.length bytes
of dst are overwritten by src. -/
def memcpyBytes (src dst : List Nat) : List Nat :=
  src ++ dst.drop src.length

/-- read_callback from hid-libusb.c.  `buf` is the content of the transfer
buffer at callback time and `actual` is actual_length.  On COMPLETED it
copies actual_length bytes from the transfer buffer into the global
receive_buf and stores actual_length in nbytes_received; CANCELLED,
NO_DEVICE and TIMED_OUT store the corresponding libusb error code; every
other status stores LIBUSB_ERROR_IO. -/
def read_callback (st : TStatus) (buf : List Nat) (actual : Nat) (s : EngState) : EngState :=
  match st with
  | .completed =>
      { s with receive_buf := memcpyBytes (buf.take actual) s.receive_buf
               nbytes_received := (actual : Int) }
  | .cancelled => { s with nbytes_received := errInterrupted }
  | .noDevice => { s with nbytes_received := errNoDevice }
  | .timedOut => { s with nbytes_received := errTimeout }
  | _ => { s with nbytes_received := errIo }

/-- One call to libusb_handle_events as seen by the wait loop: its return
code, and, when the armed receive reached a terminal transport state during
this call, the callback delivery: the transfer status together with the
bytes the transport wrote into the transfer buffer (their number is
actual_length; the list is empty for non-COMPLETED statuses, whose buffer
content the callback never reads). -/
structure DispatchEv where
  res : Int
  cb : Option (TStatus × List Nat)
  deriving DecidableEq, Repr

/-- Process one libusb_handle_events call: log it, and if the armed
transfer reached a terminal state, let the transport deposit the received
bytes into the transfer buffer (the reply area of the caller), mark the
receive no longer outstanding, and run read_callback on the result. -/
def deliver (e : DispatchEv) (s : EngState) : EngState :=
  let s1 := { s with log := s.log ++ [Action.dispatch] }
  match e.cb with
  | none => s1
  | some (st, d) =>
      let s2 := { s1 with
        reply := match st with
          | .completed => memcpyBytes d s1.reply
          | _ => s1.reply
        outstanding := false }
      read_callback st s2.reply d.length s2

/-- The transient libusb_handle_events codes the wait loop ignores:
BUSY, TIMEOUT, OVERFLOW, INTERRUPTED (hid-libusb.c lines 114-117). -/
def isTransient (c : Int) : Bool :=
  c = errBusy || c = errTimeout || c = errOverflow || c = errInterrupted

/-- Result of the wait loop of write_read. -/
inductive WaitRes
  | outcome (n : Int)
  | fatalDispatch (code : Int)
  | starved
  deriving DecidableEq, Repr

/-- The wait loop of write_read (lines 110-123): while nbytes_received is
still the sentinel 0, call libusb_handle_events; a negative dispatch code
that is not transient is returned at once as fatal; otherwise keep looping.
`starved` means the supplied trace of dispatch events ran out while the
loop was still waiting, i.e. within this trace the loop does not
terminate. -/
def waitLoop : List DispatchEv → EngState → WaitRes × EngState
  | [], s =>
      if s.nbytes_received ≠ 0 then (.outcome s.nbytes_received, s)
      else (.starved, s)
  | e :: es, s =>
      if s.nbytes_received ≠ 0 then (.outcome s.nbytes_received, s)
      else
        let s1 := deliver e s
        if e.res < 0 then
          if isTransient e.res then waitLoop es s1
          else (.fatalDispatch e.res, s1)
        else waitLoop es s1

/-- One attempt of the transaction as scheduled by the environment: the
return code of the synchronous control transfer, and the dispatch events
the wait loop will consume. -/
structure Attempt where
  sendRes : Int
  evs : List DispatchEv
  deriving DecidableEq, Repr

/-- The again label of write_read: reset the outcome slot to the sentinel 0
and call libusb_submit_transfer on the persistent transfer.  A submission
made while a previously submitted receive has not yet reached a terminal
outcome is counted in doubleSubmits. -/
def armAttempt (s : EngState) : EngState :=
  { s with nbytes_received := 0
           doubleSubmits := s.doubleSubmits + (if s.outstanding then 1 else 0)
           outstanding := true
           submits := s.submits + 1
           log := s.log ++ [Action.submit] }

/-- The libusb_control_transfer call of write_read (the HID Set_Report
send); its return code comes from the attempt script. -/
def doSend (s : EngState) : EngState :=
  { s with sends := s.sends + 1, log := s.log ++ [Action.send] }

/-- The libusb_cancel_transfer call on the send-failure path.  It is fire
and forget: it does not wait for (and the model does not deliver) the
cancellation callback, so `outstanding` is not cleared here. -/
def doCancel (s : EngState) : EngState :=
  { s with cancels := s.cancels + 1, log := s.log ++ [Action.cancel] }

/-- Result of write_read on a given trace: either the int the C function
returns, or `starved` when the trace ran out while the function was still
looping (wait loop starved, or a timeout retry with no further attempt
scheduled). -/
inductive WRRes
  | ret (n : Int)
  | starved
  deriving DecidableEq, Repr

/-- The retry/attempt loop of write_read (lines 94-131): arm the receive,
perform the send; on a negative send result cancel the receive and return
-1; otherwise run the wait loop; a fatal dispatch code is returned as is; a
LIBUSB_ERROR_TIMEOUT outcome restarts from the again label with the next
scheduled attempt; any other outcome is returned. -/
def write_read_go : List Attempt → EngState → WRRes × EngState
  | [], s => (.starved, s)
  | a :: rest, s =>
      let s1 := doSend (armAttempt s)
      if a.sendRes < 0 then (.ret (-1), doCancel s1)
      else
        match waitLoop a.evs s1 with
        | (.starved, s2) => (.starved, s2)
        | (.fatalDispatch c, s2) => (.ret c, s2)
        | (.outcome n, s2) =>
            if n = errTimeout then
              write_read_go rest { s2 with retries := s2.retries + 1
                                           log := s2.log ++ [Action.retry] }
            else (.ret n, s2)

/-- write_read (lines 85-132): allocate the persistent transfer on first
invocation, fill it with the reply area of the caller as buffer,
read_callback as callback and a 500 ms timeout, then run the attempt
loop. -/
def write_read (attempts : List Attempt) (s : EngState) : WRRes × EngState :=
  let s0 :=
    if s.transferAllocated then s
    else { s with transferAllocated := true
                  allocs := s.allocs + 1
                  log := s.log ++ [Action.allocT] }
  write_read_go attempts s0

/-- Observable result of hid_send_recv: normal return with the reply bytes,
process exit after a negative write_read result, process exit after the
short-read report, or starvation of the trace while write_read was still
looping. -/
inductive HSRRes
  | ok (reply : List Nat)
  | exitFailure (n : Int)
  | shortRead (n : Int) (rlength : Nat)
  | starved
  deriving DecidableEq, Repr

/-- hid_send_recv (lines 139-172): run write_read; exit(-1) on a negative
result; report a short read and exit(-1) when the result differs from
rlength; otherwise return with the reply bytes in the rdata area of the
caller.  (The hex-dump logging has no effect on state or control flow and
is not modelled.) -/
def hid_send_recv (attempts : List Attempt) (rlength : Nat) (s : EngState) :
    HSRRes × EngState :=
  match write_read attempts s with
  | (.starved, s1) => (.starved, s1)
  | (.ret n, s1) =>
      if n < 0 then (.exitFailure n, s1)
      else if n ≠ (rlength : Int) then (.shortRead n rlength, s1)
      else (.ok s1.reply, s1)

/-- hid_close (lines 237-250): a no-op when the context is closed;
otherwise free the persistent transfer if it was allocated, release and
close the device, and close the context. -/
def hid_close (s : EngState) : EngState :=
  if s.ctxOpen then
    let s1 :=
      if s.transferAllocated then
        { s with transferAllocated := false
                 frees := s.frees + 1
                 log := s.log ++ [Action.freeT] }
      else s
    { s1 with ctxOpen := false }
  else s

/-- One scripted call to hid_send_recv made by the rest of the program: the
attempt trace the environment will play, the expected reply length, and the
rdata area the caller hands in. -/
structure CallScript where
  attempts : List Attempt
  rlength : Nat
  reply0 : List Nat
  deriving DecidableEq, Repr

/-- A run of the program between hid_init and hid_close: the callers of
hid_send_recv issue their calls in order.  A call that exits the process
(exitFailure or shortRead) or starves halts the run; only a normal return
lets the next call happen.  This mirrors the exit(-1) calls in
hid_send_recv: after any failure no further code of the process runs. -/
def runCalls : List CallScript → EngState → EngState
  | [], s => s
  | c :: cs, s =>
      match hid_send_recv c.attempts c.rlength { s with reply := c.reply0 } with
      | (.ok _, s1) => runCalls cs s1
      | (_, s1) => s1

/-- Predicate selecting the submit and send entries of the action log. -/
def isArmOrSend : Action → Bool
  | .submit => true
  | .send => true
  | _ => false

/-- An attempt whose receive times out: send succeeds, one dispatch call
delivers the TIMED_OUT callback. -/
def timeoutAttempt : Attempt :=
  { sendRes := 0, evs := [{ res := 0, cb := some (.timedOut, []) }] }

/-- An attempt that completes with reply bytes d: send succeeds, one
dispatch call delivers the COMPLETED callback carrying d. -/
def okAttempt (d : List Nat) : Attempt :=
  { sendRes := 0, evs := [{ res := 0, cb := some (.completed, d) }] }

/-- A trace that times out m times and then completes with d. -/
def retryTrace (m : Nat) (d : List Nat) : List Attempt :=
  List.replicate m timeoutAttempt ++ [okAttempt d]

/-- An attempt whose synchronous control-transfer send fails. -/
def sendFailAttempt : Attempt := { sendRes := -1, evs := [] }

/-- An attempt whose receive completes with a STALL status (classified as
an input/output error by read_callback). -/
def stallAttempt : Attempt :=
  { sendRes := 0, evs := [{ res := 0, cb := some (.stall, []) }] }

/-- An attempt whose receive reports NO_DEVICE. -/
def noDeviceAttempt : Attempt :=
  { sendRes := 0, evs := [{ res := 0, cb := some (.noDevice, []) }] }

/-- An attempt whose receive completes with an empty (zero-length) reply,
followed by two benign dispatch calls that deliver nothing. -/
def zeroLenAttempt : Attempt :=
  { sendRes := 0,
    evs := [{ res := 0, cb := some (.completed, []) },
            { res := 0, cb := none }, { res := 0, cb := none }] }

/-- The parts of the state that the wait loop never touches: all call
counters, the lifecycle flags, and the submit/send entries of the log. -/
def frameOf (s : EngState) :
    (Nat × Nat × Nat × Nat × Nat × Nat × Nat) × (Bool × Bool) × List Action :=
  ((s.submits, s.sends, s.cancels, s.retries, s.allocs, s.frees, s.doubleSubmits),
   (s.transferAllocated, s.ctxOpen), s.log.filter isArmOrSend)

/-- The code read_callback stores for a non-completed transfer status. -/
def statusCode : TStatus → Int
  | .completed => 0
  | .cancelled => errInterrupted
  | .noDevice => errNoDevice
  | .timedOut => errTimeout
  | _ => errIo

/-- The transfer-descriptor lifecycle fields: allocs, frees, allocated
flag, context flag. -/
def lifecycleOf (s : EngState) : Nat × Nat × Bool × Bool :=
  (s.allocs, s.frees, s.transferAllocated, s.ctxOpen)

/-- k submit/send pairs in program order. -/
def ssPairs (k : Nat) : List Action :=
  List.flatten (List.replicate k [Action.submit, Action.send])

/-- The state after one full timed-out attempt: one more submission, one
more send, one more retry, the slot holding the timeout code. -/
def retryStep (s : EngState) : EngState :=
  { s with nbytes_received := errTimeout
           outstanding := false
           doubleSubmits := s.doubleSubmits + (if s.outstanding then 1 else 0)
           submits := s.submits + 1
           sends := s.sends + 1
           retries := s.retries + 1
           log := (((s.log ++ [Action.submit]) ++ [Action.send]) ++ [Action.dispatch])
             ++ [Action.retry] }

/-- The state after an attempt that completes with the single byte 1. -/
def okStep (s : EngState) : EngState :=
  { s with reply := memcpyBytes [1] s.reply
           receive_buf := memcpyBytes [1] s.receive_buf
           nbytes_received := 1
           outstanding := false
           doubleSubmits := s.doubleSubmits + (if s.outstanding then 1 else 0)
           submits := s.submits + 1
           sends := s.sends + 1
           log := ((s.log ++ [Action.submit]) ++ [Action.send]) ++ [Action.dispatch] }

lemma frame_submits {a b : EngState} (h : frameOf a = frameOf b) :
    a.submits = b.submits := congrArg (fun t => t.1.1) h

lemma frame_sends {a b : EngState} (h : frameOf a = frameOf b) :
    a.sends = b.sends := congrArg (fun t => t.1.2.1) h

lemma frame_cancels {a b : EngState} (h : frameOf a = frameOf b) :
    a.cancels = b.cancels := congrArg (fun t => t.1.2.2.1) h

lemma frame_retries {a b : EngState} (h : frameOf a = frameOf b) :
    a.retries = b.retries := congrArg (fun t => t.1.2.2.2.1) h

lemma frame_allocs {a b : EngState} (h : frameOf a = frameOf b) :
    a.allocs = b.allocs := congrArg (fun t => t.1.2.2.2.2.1) h

lemma frame_frees {a b : EngState} (h : frameOf a = frameOf b) :
    a.frees = b.frees := congrArg (fun t => t.1.2.2.2.2.2.1) h

lemma frame_doubleSubmits {a b : EngState} (h : frameOf a = frameOf b) :
    a.doubleSubmits = b.doubleSubmits := congrArg (fun t => t.1.2.2.2.2.2.2) h

lemma frame_transferAllocated {a b : EngState} (h : frameOf a = frameOf b) :
    a.transferAllocated = b.transferAllocated := congrArg (fun t => t.2.1.1) h

lemma frame_ctxOpen {a b : EngState} (h : frameOf a = frameOf b) :
    a.ctxOpen = b.ctxOpen := congrArg (fun t => t.2.1.2) h

lemma frame_filterLog {a b : EngState} (h : frameOf a = frameOf b) :
    a.log.filter isArmOrSend = b.log.filter isArmOrSend := congrArg (fun t => t.2.2) h

lemma deliver_frame (e : DispatchEv) (s : EngState) :
    frameOf (deliver e s) = frameOf s := by
  obtain ⟨res, cb⟩ := e
  cases cb with
  | none => simp [deliver, frameOf, isArmOrSend]
  | some p =>
      obtain ⟨st, d⟩ := p
      cases st <;> simp [deliver, read_callback, frameOf, isArmOrSend]

lemma waitLoop_done (evs : List DispatchEv) (s : EngState)
    (h : s.nbytes_received ≠ 0) :
    waitLoop evs s = (.outcome s.nbytes_received, s) := by
  cases evs <;> simp [waitLoop, h]

lemma waitLoop_nil_starved (s : EngState) (h : s.nbytes_received = 0) :
    waitLoop [] s = (.starved, s) := by
  simp [waitLoop, h]

lemma waitLoop_cons_fatal (e : DispatchEv) (es : List DispatchEv) (s : EngState)
    (h : s.nbytes_received = 0) (h1 : e.res < 0) (h2 : isTransient e.res = false) :
    waitLoop (e :: es) s = (.fatalDispatch e.res, deliver e s) := by
  simp [waitLoop, h, h1, h2]

lemma waitLoop_cons_step (e : DispatchEv) (es : List DispatchEv) (s : EngState)
    (h : s.nbytes_received = 0) (h2 : ¬ e.res < 0 ∨ isTransient e.res = true) :
    waitLoop (e :: es) s = waitLoop es (deliver e s) := by
  rcases h2 with h2 | h2
  · simp [waitLoop, h, h2]
  · by_cases h1 : e.res < 0 <;> simp [waitLoop, h, h1, h2]

lemma waitLoop_frame (evs : List DispatchEv) (s : EngState) :
    frameOf ((waitLoop evs s).2) = frameOf s := by
  induction evs generalizing s with
  | nil =>
      by_cases h : s.nbytes_received = 0
      · rw [waitLoop_nil_starved s h]
      · rw [waitLoop_done [] s h]
  | cons e es ih =>
      by_cases h : s.nbytes_received = 0
      · by_cases h1 : e.res < 0
        · by_cases h2 : isTransient e.res
          · rw [waitLoop_cons_step e es s h (Or.inr h2)]
            exact (ih (deliver e s)).trans (deliver_frame e s)
          · rw [waitLoop_cons_fatal e es s h h1 (by simpa using h2)]
            exact deliver_frame e s
        · rw [waitLoop_cons_step e es s h (Or.inl h1)]
          exact (ih (deliver e s)).trans (deliver_frame e s)
      · rw [waitLoop_done (e :: es) s h]

/-- The wait loop exits with an outcome only when the slot left the
sentinel value 0. -/
lemma waitLoop_outcome_ne_zero {evs : List DispatchEv} {s : EngState}
    {n : Int} {s2 : EngState} (h : waitLoop evs s = (.outcome n, s2)) : n ≠ 0 := by
  induction evs generalizing s with
  | nil =>
      by_cases h0 : s.nbytes_received = 0
      · rw [waitLoop_nil_starved s h0] at h
        exact absurd (congrArg Prod.fst h) (by simp)
      · rw [waitLoop_done [] s h0] at h
        have := congrArg Prod.fst h
        simp at this
        omega
  | cons e es ih =>
      by_cases h0 : s.nbytes_received = 0
      · by_cases h1 : e.res < 0
        · by_cases h2 : isTransient e.res
          · rw [waitLoop_cons_step e es s h0 (Or.inr h2)] at h
            exact ih h
          · rw [waitLoop_cons_fatal e es s h0 h1 (by simpa using h2)] at h
            exact absurd (congrArg Prod.fst h) (by simp)
        · rw [waitLoop_cons_step e es s h0 (Or.inl h1)] at h
          exact ih h
      · rw [waitLoop_done (e :: es) s h0] at h
        have := congrArg Prod.fst h
        simp at this
        omega

/-- A fatal dispatch exit carries a negative, non-transient handle-events
code. -/
lemma waitLoop_fatal_code {evs : List DispatchEv} {s : EngState}
    {c : Int} {s2 : EngState} (h : waitLoop evs s = (.fatalDispatch c, s2)) :
    c < 0 ∧ isTransient c = false := by
  induction evs generalizing s with
  | nil =>
      by_cases h0 : s.nbytes_received = 0
      · rw [waitLoop_nil_starved s h0] at h
        exact absurd (congrArg Prod.fst h) (by simp)
      · rw [waitLoop_done [] s h0] at h
        exact absurd (congrArg Prod.fst h) (by simp)
  | cons e es ih =>
      by_cases h0 : s.nbytes_received = 0
      · by_cases h1 : e.res < 0
        · by_cases h2 : isTransient e.res
          · rw [waitLoop_cons_step e es s h0 (Or.inr h2)] at h
            exact ih h
          · rw [waitLoop_cons_fatal e es s h0 h1 (by simpa using h2)] at h
            have hc : e.res = c := by
              have := congrArg Prod.fst h
              simpa using this
            subst hc
            exact ⟨h1, by simpa using h2⟩
        · rw [waitLoop_cons_step e es s h0 (Or.inl h1)] at h
          exact ih h
      · rw [waitLoop_done (e :: es) s h0] at h
        exact absurd (congrArg Prod.fst h) (by simp)

/-- Delivering a callback clears the outstanding flag; an event without a
callback leaves both the slot and the flag alone. -/
lemma deliver_outstanding (e : DispatchEv) (s : EngState) :
    (deliver e s).outstanding = false ∨
      ((deliver e s).nbytes_received = s.nbytes_received ∧
        (deliver e s).outstanding = s.outstanding ∧
        (deliver e s).reply = s.reply ∧ (deliver e s).receive_buf = s.receive_buf) := by
  obtain ⟨res, cb⟩ := e
  cases cb with
  | none => right; simp [deliver]
  | some p =>
      obtain ⟨st, d⟩ := p
      left
      cases st <;> simp [deliver, read_callback]

/-- When the wait loop exits with an outcome the armed receive has reached
a terminal transport state: it is no longer outstanding. -/
lemma waitLoop_outcome_outstanding {evs : List DispatchEv} {s : EngState}
    {n : Int} {s2 : EngState}
    (hP : s.nbytes_received = 0 ∨ s.outstanding = false)
    (h : waitLoop evs s = (.outcome n, s2)) : s2.outstanding = false := by
  induction evs generalizing s with
  | nil =>
      by_cases h0 : s.nbytes_received = 0
      · rw [waitLoop_nil_starved s h0] at h
        exact absurd (congrArg Prod.fst h) (by simp)
      · rw [waitLoop_done [] s h0] at h
        have hs : s = s2 := congrArg Prod.snd h
        rcases hP with hP | hP
        · exact absurd hP h0
        · rw [← hs]; exact hP
  | cons e es ih =>
      by_cases h0 : s.nbytes_received = 0
      · have hP1 : (deliver e s).nbytes_received = 0 ∨ (deliver e s).outstanding = false := by
          rcases deliver_outstanding e s with hd | hd
          · exact Or.inr hd
          · exact Or.inl (hd.1.trans h0)
        by_cases h1 : e.res < 0
        · by_cases h2 : isTransient e.res
          · rw [waitLoop_cons_step e es s h0 (Or.inr h2)] at h
            exact ih hP1 h
          · rw [waitLoop_cons_fatal e es s h0 h1 (by simpa using h2)] at h
            exact absurd (congrArg Prod.fst h) (by simp)
        · rw [waitLoop_cons_step e es s h0 (Or.inl h1)] at h
          exact ih hP1 h
      · rw [waitLoop_done (e :: es) s h0] at h
        have hs : s = s2 := congrArg Prod.snd h
        rcases hP with hP | hP
        · exact absurd hP h0
        · rw [← hs]; exact hP

lemma statusCode_neg (st : TStatus) (h : st ≠ TStatus.completed) : statusCode st < 0 := by
  cases st <;> simp [statusCode, errInterrupted, errNoDevice, errTimeout, errIo] at *

lemma deliver_none (res : Int) (s : EngState) :
    deliver { res := res, cb := none } s = { s with log := s.log ++ [Action.dispatch] } := rfl

lemma deliver_completed (res : Int) (d : List Nat) (s : EngState) :
    deliver { res := res, cb := some (.completed, d) } s =
      { s with reply := memcpyBytes d s.reply
               receive_buf := memcpyBytes d s.receive_buf
               nbytes_received := (d.length : Int)
               outstanding := false
               log := s.log ++ [Action.dispatch] } := by
  simp [deliver, read_callback, memcpyBytes, List.take_left]

lemma deliver_noncompleted (res : Int) (st : TStatus) (d : List Nat) (s : EngState)
    (h : st ≠ TStatus.completed) :
    deliver { res := res, cb := some (st, d) } s =
      { s with nbytes_received := statusCode st
               outstanding := false
               log := s.log ++ [Action.dispatch] } := by
  cases st <;> simp [deliver, read_callback, statusCode] at *

/-- What the wait loop leaves in the buffers when it exits with an outcome:
a negative outcome (timeout or a fatal callback code) leaves both the reply
area and the global receive_buf untouched, while a positive outcome n comes
from a COMPLETED callback that deposited some n received bytes d at the
front of the reply area and copied the same d into receive_buf. -/
lemma waitLoop_outcome_buffers {evs : List DispatchEv} {s : EngState}
    {n : Int} {s2 : EngState}
    (h0 : s.nbytes_received = 0) (h : waitLoop evs s = (.outcome n, s2)) :
    (n < 0 ∧ s2.reply = s.reply ∧ s2.receive_buf = s.receive_buf) ∨
      (∃ d : List Nat, n = (d.length : Int) ∧ 0 < d.length ∧
        s2.reply = memcpyBytes d s.reply ∧
        s2.receive_buf = memcpyBytes d s.receive_buf) := by
  induction evs generalizing s with
  | nil =>
      rw [waitLoop_nil_starved s h0] at h
      exact absurd (congrArg Prod.fst h) (by simp)
  | cons e es ih =>
      have hstep : ∀ h2 : ¬ e.res < 0 ∨ isTransient e.res = true,
          waitLoop (e :: es) s = waitLoop es (deliver e s) :=
        fun h2 => waitLoop_cons_step e es s h0 h2
      by_cases hfat : e.res < 0 ∧ isTransient e.res = false
      · rw [waitLoop_cons_fatal e es s h0 hfat.1 hfat.2] at h
        exact absurd (congrArg Prod.fst h) (by simp)
      · have h2 : ¬ e.res < 0 ∨ isTransient e.res = true := by
          by_cases hr : e.res < 0
          · right
            rcases Bool.eq_false_or_eq_true (isTransient e.res) with hb | hb
            · exact hb
            · exact absurd ⟨hr, hb⟩ hfat
          · exact Or.inl hr
        rw [hstep h2] at h
        obtain ⟨res, cb⟩ := e
        cases cb with
        | none =>
            rw [deliver_none] at h
            have := ih (s := { s with log := s.log ++ [Action.dispatch] }) (by simpa using h0) h
            simpa using this
        | some p =>
            obtain ⟨st, d⟩ := p
            by_cases hc : st = TStatus.completed
            · subst hc
              cases d with
              | nil =>
                  rw [deliver_completed] at h
                  have := ih
                    (s := { s with reply := memcpyBytes [] s.reply
                                   receive_buf := memcpyBytes [] s.receive_buf
                                   nbytes_received := ((List.length [] : Nat) : Int)
                                   outstanding := false
                                   log := s.log ++ [Action.dispatch] })
                    (by simp) h
                  simpa [memcpyBytes] using this
              | cons b bs =>
                  rw [deliver_completed] at h
                  rw [waitLoop_done _ _ (by simp; omega)] at h
                  rw [Prod.mk.injEq] at h
                  obtain ⟨h1, h2⟩ := h
                  subst h2
                  right
                  refine ⟨b :: bs, ?_, by simp, by simp, by simp⟩
                  simp at h1 ⊢
                  omega
            · rw [deliver_noncompleted res st d s hc] at h
              have hneg := statusCode_neg st hc
              rw [waitLoop_done _ _ (by simp; omega)] at h
              rw [Prod.mk.injEq] at h
              obtain ⟨h1, h2⟩ := h
              subst h2
              left
              have hn : statusCode st = n := by simpa using h1
              exact ⟨by omega, by simp, by simp⟩

lemma wrg_cons_sendfail {a : Attempt} (rest : List Attempt) (s : EngState)
    (hs : a.sendRes < 0) :
    write_read_go (a :: rest) s = (.ret (-1), doCancel (doSend (armAttempt s))) := by
  simp [write_read_go, hs]

lemma wrg_cons_starved {a : Attempt} (rest : List Attempt) (s : EngState)
    (hs : ¬ a.sendRes < 0) {s3 : EngState}
    (hw : waitLoop a.evs (doSend (armAttempt s)) = (.starved, s3)) :
    write_read_go (a :: rest) s = (.starved, s3) := by
  simp [write_read_go, hs, hw]

lemma wrg_cons_fatal {a : Attempt} (rest : List Attempt) (s : EngState)
    (hs : ¬ a.sendRes < 0) {c : Int} {s3 : EngState}
    (hw : waitLoop a.evs (doSend (armAttempt s)) = (.fatalDispatch c, s3)) :
    write_read_go (a :: rest) s = (.ret c, s3) := by
  simp [write_read_go, hs, hw]

lemma wrg_cons_outcome_done {a : Attempt} (rest : List Attempt) (s : EngState)
    (hs : ¬ a.sendRes < 0) {m : Int} {s3 : EngState}
    (hw : waitLoop a.evs (doSend (armAttempt s)) = (.outcome m, s3))
    (hm : m ≠ errTimeout) :
    write_read_go (a :: rest) s = (.ret m, s3) := by
  simp [write_read_go, hs, hw, hm]

lemma wrg_cons_outcome_retry {a : Attempt} (rest : List Attempt) (s : EngState)
    (hs : ¬ a.sendRes < 0) {s3 : EngState}
    (hw : waitLoop a.evs (doSend (armAttempt s)) = (.outcome errTimeout, s3)) :
    write_read_go (a :: rest) s =
      write_read_go rest { s3 with retries := s3.retries + 1
                                   log := s3.log ++ [Action.retry] } := by
  simp [write_read_go, hs, hw]

lemma armSend_nbytes (s : EngState) : (doSend (armAttempt s)).nbytes_received = 0 := by
  simp [armAttempt, doSend]

/-- write_read never hands back 0: every returned value is either a
negative error code or a strictly positive byte count. -/
lemma wrg_ret_ne_zero {attempts : List Attempt} {s : EngState} {n : Int}
    {s2 : EngState} (h : write_read_go attempts s = (.ret n, s2)) : n ≠ 0 := by
  induction attempts generalizing s with
  | nil => simp [write_read_go] at h
  | cons a rest ih =>
      by_cases hs : a.sendRes < 0
      · rw [wrg_cons_sendfail rest s hs, Prod.mk.injEq] at h
        have : (-1 : Int) = n := by simpa using h.1
        omega
      · rcases hw : waitLoop a.evs (doSend (armAttempt s)) with ⟨r, s3⟩
        cases r with
        | starved =>
            rw [wrg_cons_starved rest s hs hw] at h
            exact absurd (congrArg Prod.fst h) (by simp)
        | fatalDispatch c =>
            rw [wrg_cons_fatal rest s hs hw] at h
            have hc := (waitLoop_fatal_code hw).1
            have : c = n := by simpa using congrArg Prod.fst h
            omega
        | outcome m =>
            by_cases hm : m = errTimeout
            · subst hm
              rw [wrg_cons_outcome_retry rest s hs hw] at h
              exact ih h
            · rw [wrg_cons_outcome_done rest s hs hw hm] at h
              have hmn : m = n := by simpa using congrArg Prod.fst h
              have := waitLoop_outcome_ne_zero hw
              omega

/-- A strictly positive write_read result n comes from a COMPLETED receive
of n bytes d: the reply area of the caller starts with d and the callback
copied the same d into the global receive_buf. -/
lemma wrg_ret_buffers {attempts : List Attempt} {s : EngState} {n : Int}
    {s2 : EngState} (h : write_read_go attempts s = (.ret n, s2)) (hn : 0 < n) :
    ∃ d : List Nat, n = (d.length : Int) ∧
      s2.reply = memcpyBytes d s.reply ∧
      s2.receive_buf = memcpyBytes d s.receive_buf := by
  induction attempts generalizing s with
  | nil => simp [write_read_go] at h
  | cons a rest ih =>
      by_cases hs : a.sendRes < 0
      · rw [wrg_cons_sendfail rest s hs, Prod.mk.injEq] at h
        have : (-1 : Int) = n := by simpa using h.1
        omega
      · rcases hw : waitLoop a.evs (doSend (armAttempt s)) with ⟨r, s3⟩
        cases r with
        | starved =>
            rw [wrg_cons_starved rest s hs hw] at h
            exact absurd (congrArg Prod.fst h) (by simp)
        | fatalDispatch c =>
            rw [wrg_cons_fatal rest s hs hw] at h
            have hc := (waitLoop_fatal_code hw).1
            have : c = n := by simpa using congrArg Prod.fst h
            omega
        | outcome m =>
            by_cases hm : m = errTimeout
            · subst hm
              rw [wrg_cons_outcome_retry rest s hs hw] at h
              rcases waitLoop_outcome_buffers (armSend_nbytes s) hw with
                ⟨hneg, hrep, hrec⟩ | ⟨d, hd, hdpos, hrep, hrec⟩
              · obtain ⟨d, hd1, hd2, hd3⟩ := ih h
                refine ⟨d, hd1, ?_, ?_⟩
                · rw [hd2]
                  simp [hrep, armAttempt, doSend]
                · rw [hd3]
                  simp [hrec, armAttempt, doSend]
              · exfalso
                rw [errTimeout] at hd
                omega
            · rw [wrg_cons_outcome_done rest s hs hw hm, Prod.mk.injEq] at h
              obtain ⟨h1, h2⟩ := h
              have hmn : m = n := by simpa using h1
              subst hmn
              subst h2
              rcases waitLoop_outcome_buffers (armSend_nbytes s) hw with
                ⟨hneg, hrep, hrec⟩ | ⟨d, hd, hdpos, hrep, hrec⟩
              · omega
              · refine ⟨d, hd, ?_, ?_⟩
                · rw [hrep]
                  simp [armAttempt, doSend]
                · rw [hrec]
                  simp [armAttempt, doSend]

/-- Convenient form of waitLoop_frame for a given run of the wait loop. -/
lemma waitLoop_frame_of {evs : List DispatchEv} {s : EngState} {r : WaitRes}
    {s3 : EngState} (hw : waitLoop evs s = (r, s3)) : frameOf s3 = frameOf s := by
  have := waitLoop_frame evs s
  rw [hw] at this
  exact this

/-- Every terminating run of the attempt loop performs exactly one
submission and one send per attempt: one for the first attempt plus one of
each per timeout retry. -/
lemma wrg_counts {attempts : List Attempt} {s : EngState} {n : Int}
    {s2 : EngState} (h : write_read_go attempts s = (.ret n, s2)) :
    s2.submits + s.retries = s.submits + s2.retries + 1 ∧
      s2.sends + s.retries = s.sends + s2.retries + 1 := by
  induction attempts generalizing s with
  | nil => simp [write_read_go] at h
  | cons a rest ih =>
      by_cases hs : a.sendRes < 0
      · rw [wrg_cons_sendfail rest s hs, Prod.mk.injEq] at h
        rw [← h.2]
        simp only [doCancel, doSend, armAttempt]
        omega
      · rcases hw : waitLoop a.evs (doSend (armAttempt s)) with ⟨r, s3⟩
        have hfr := waitLoop_frame_of hw
        have hsub : s3.submits = s.submits + 1 := by
          rw [frame_submits hfr]
          simp [doSend, armAttempt]
        have hsnd : s3.sends = s.sends + 1 := by
          rw [frame_sends hfr]
          simp [doSend, armAttempt]
        have hret : s3.retries = s.retries := by
          rw [frame_retries hfr]
          simp [doSend, armAttempt]
        cases r with
        | starved =>
            rw [wrg_cons_starved rest s hs hw] at h
            exact absurd (congrArg Prod.fst h) (by simp)
        | fatalDispatch c =>
            rw [wrg_cons_fatal rest s hs hw, Prod.mk.injEq] at h
            rw [← h.2]
            omega
        | outcome m =>
            by_cases hm : m = errTimeout
            · subst hm
              rw [wrg_cons_outcome_retry rest s hs hw] at h
              obtain ⟨ih1, ih2⟩ := ih h
              simp at ih1 ih2
              omega
            · rw [wrg_cons_outcome_done rest s hs hw hm, Prod.mk.injEq] at h
              rw [← h.2]
              omega

/-- The cancels counter either stays put, or is bumped exactly once and
then only on the path that returns the send-failure code -1. -/
lemma wrg_cancels {attempts : List Attempt} {s : EngState} {r : WRRes}
    {s2 : EngState} (h : write_read_go attempts s = (r, s2)) :
    s2.cancels = s.cancels ∨ (s2.cancels = s.cancels + 1 ∧ r = .ret (-1)) := by
  induction attempts generalizing s with
  | nil =>
      simp [write_read_go, Prod.mk.injEq] at h
      rw [← h.2]
      exact Or.inl rfl
  | cons a rest ih =>
      by_cases hs : a.sendRes < 0
      · rw [wrg_cons_sendfail rest s hs, Prod.mk.injEq] at h
        right
        constructor
        · rw [← h.2]
          simp [doCancel, doSend, armAttempt]
        · exact h.1.symm
      · rcases hw : waitLoop a.evs (doSend (armAttempt s)) with ⟨rw1, s3⟩
        have hfr := waitLoop_frame_of hw
        have hcan : s3.cancels = s.cancels := by
          rw [frame_cancels hfr]
          simp [doSend, armAttempt]
        cases rw1 with
        | starved =>
            rw [wrg_cons_starved rest s hs hw, Prod.mk.injEq] at h
            rw [← h.2]
            exact Or.inl hcan
        | fatalDispatch c =>
            rw [wrg_cons_fatal rest s hs hw, Prod.mk.injEq] at h
            rw [← h.2]
            exact Or.inl hcan
        | outcome m =>
            by_cases hm : m = errTimeout
            · subst hm
              rw [wrg_cons_outcome_retry rest s hs hw] at h
              rcases ih h with h1 | ⟨h1, h2⟩
              · left
                rw [h1]
                simpa using hcan
              · right
                refine ⟨?_, h2⟩
                rw [h1]
                simpa using hcan
            · rw [wrg_cons_outcome_done rest s hs hw hm, Prod.mk.injEq] at h
              rw [← h.2]
              exact Or.inl hcan

/-- When every scheduled send succeeds, no cancellation is ever issued, on
any path: dispatch errors, length mismatches and fatal callback outcomes
all leave the cancels counter untouched. -/
lemma wrg_cancels_ok {attempts : List Attempt} {s : EngState} {r : WRRes}
    {s2 : EngState} (hok : ∀ a ∈ attempts, 0 ≤ a.sendRes)
    (h : write_read_go attempts s = (r, s2)) : s2.cancels = s.cancels := by
  induction attempts generalizing s with
  | nil =>
      simp [write_read_go, Prod.mk.injEq] at h
      rw [← h.2]
  | cons a rest ih =>
      have ha : 0 ≤ a.sendRes := hok a (by simp)
      have hs : ¬ a.sendRes < 0 := by omega
      rcases hw : waitLoop a.evs (doSend (armAttempt s)) with ⟨rw1, s3⟩
      have hfr := waitLoop_frame_of hw
      have hcan : s3.cancels = s.cancels := by
        rw [frame_cancels hfr]
        simp [doSend, armAttempt]
      cases rw1 with
      | starved =>
          rw [wrg_cons_starved rest s hs hw, Prod.mk.injEq] at h
          rw [← h.2]
          exact hcan
      | fatalDispatch c =>
          rw [wrg_cons_fatal rest s hs hw, Prod.mk.injEq] at h
          rw [← h.2]
          exact hcan
      | outcome m =>
          by_cases hm : m = errTimeout
          · subst hm
            rw [wrg_cons_outcome_retry rest s hs hw] at h
            have := ih (fun b hb => hok b (by simp [hb])) h
            rw [this]
            simpa using hcan
          · rw [wrg_cons_outcome_done rest s hs hw hm, Prod.mk.injEq] at h
            rw [← h.2]
            exact hcan

/-- Starting from a state with no outstanding receive, the attempt loop
never submits over an outstanding receive, and whenever it returns a
non-negative value the receive has reached a terminal outcome. -/
lemma wrg_outstanding {attempts : List Attempt} {s : EngState} {r : WRRes}
    {s2 : EngState} (hout : s.outstanding = false)
    (h : write_read_go attempts s = (r, s2)) :
    s2.doubleSubmits = s.doubleSubmits ∧
      (∀ n : Int, r = .ret n → 0 ≤ n → s2.outstanding = false) := by
  induction attempts generalizing s with
  | nil =>
      simp [write_read_go, Prod.mk.injEq] at h
      rw [← h.2]
      refine ⟨rfl, ?_⟩
      intro n hr
      rw [← h.1] at hr
      exact absurd hr (by simp)
  | cons a rest ih =>
      have harm : (doSend (armAttempt s)).doubleSubmits = s.doubleSubmits := by
        simp [doSend, armAttempt, hout]
      by_cases hs : a.sendRes < 0
      · rw [wrg_cons_sendfail rest s hs, Prod.mk.injEq] at h
        constructor
        · rw [← h.2]
          simp [doCancel, harm]
        · intro n hr hn
          rw [← h.1] at hr
          have : (-1 : Int) = n := by simpa using hr
          omega
      · rcases hw : waitLoop a.evs (doSend (armAttempt s)) with ⟨rw1, s3⟩
        have hfr := waitLoop_frame_of hw
        have hds : s3.doubleSubmits = s.doubleSubmits := by
          rw [frame_doubleSubmits hfr]
          exact harm
        cases rw1 with
        | starved =>
            rw [wrg_cons_starved rest s hs hw, Prod.mk.injEq] at h
            refine ⟨by rw [← h.2]; exact hds, ?_⟩
            intro n hr
            rw [← h.1] at hr
            exact absurd hr (by simp)
        | fatalDispatch c =>
            rw [wrg_cons_fatal rest s hs hw, Prod.mk.injEq] at h
            refine ⟨by rw [← h.2]; exact hds, ?_⟩
            intro n hr hn
            rw [← h.1] at hr
            have hcn : c = n := by simpa using hr
            have := (waitLoop_fatal_code hw).1
            omega
        | outcome m =>
            have hterm : s3.outstanding = false :=
              waitLoop_outcome_outstanding (Or.inl (armSend_nbytes s)) hw
            by_cases hm : m = errTimeout
            · subst hm
              rw [wrg_cons_outcome_retry rest s hs hw] at h
              have := ih (s := { s3 with retries := s3.retries + 1
                                         log := s3.log ++ [Action.retry] })
                (by simpa using hterm) h
              refine ⟨?_, this.2⟩
              rw [this.1]
              simpa using hds
            · rw [wrg_cons_outcome_done rest s hs hw hm, Prod.mk.injEq] at h
              refine ⟨by rw [← h.2]; exact hds, ?_⟩
              intro n hr hn
              rw [← h.2]
              exact hterm

lemma frame_lifecycle {a b : EngState} (h : frameOf a = frameOf b) :
    lifecycleOf a = lifecycleOf b := by
  simp [lifecycleOf, frame_allocs h, frame_frees h, frame_transferAllocated h,
    frame_ctxOpen h]

/-- The attempt loop neither allocates nor frees the persistent transfer
and never touches the context. -/
lemma wrg_lifecycle (attempts : List Attempt) (s : EngState) :
    lifecycleOf ((write_read_go attempts s).2) = lifecycleOf s := by
  induction attempts generalizing s with
  | nil => simp [write_read_go]
  | cons a rest ih =>
      by_cases hs : a.sendRes < 0
      · rw [wrg_cons_sendfail rest s hs]
        simp [lifecycleOf, doCancel, doSend, armAttempt]
      · rcases hw : waitLoop a.evs (doSend (armAttempt s)) with ⟨rw1, s3⟩
        have hfr : lifecycleOf s3 = lifecycleOf s := by
          refine (frame_lifecycle (waitLoop_frame_of hw)).trans ?_
          simp [lifecycleOf, doSend, armAttempt]
        cases rw1 with
        | starved =>
            rw [wrg_cons_starved rest s hs hw]
            exact hfr
        | fatalDispatch c =>
            rw [wrg_cons_fatal rest s hs hw]
            exact hfr
        | outcome m =>
            by_cases hm : m = errTimeout
            · subst hm
              rw [wrg_cons_outcome_retry rest s hs hw]
              refine (ih _).trans ?_
              refine Eq.trans ?_ hfr
              simp [lifecycleOf]
            · rw [wrg_cons_outcome_done rest s hs hw hm]
              exact hfr

lemma ssPairs_succ (k : Nat) :
    ssPairs (k + 1) = [Action.submit, Action.send] ++ ssPairs k := by
  simp [ssPairs, List.replicate_succ]

lemma ssPairs_snoc (k : Nat) :
    ssPairs k ++ [Action.submit, Action.send] = ssPairs (k + 1) := by
  induction k with
  | zero => simp [ssPairs]
  | succ m ih =>
      rw [ssPairs_succ m, ssPairs_succ (m + 1), List.append_assoc, ih]

/-- Ordering of libusb calls inside the attempt loop: the submit and send
entries of the log always form complete submit-then-send pairs, one per
attempt; in particular every send is preceded by the submission that armed
the receive for its reply. -/
lemma wrg_log {attempts : List Attempt} {s : EngState} {k : Nat}
    (hk : s.log.filter isArmOrSend = ssPairs k) :
    ∃ k2 : Nat, ((write_read_go attempts s).2).log.filter isArmOrSend = ssPairs k2 := by
  induction attempts generalizing s k with
  | nil => exact ⟨k, by simpa [write_read_go] using hk⟩
  | cons a rest ih =>
      have harm : (doSend (armAttempt s)).log.filter isArmOrSend = ssPairs (k + 1) := by
        simp [doSend, armAttempt, List.filter_append, isArmOrSend, hk, ssPairs_snoc]
      by_cases hs : a.sendRes < 0
      · rw [wrg_cons_sendfail rest s hs]
        refine ⟨k + 1, ?_⟩
        simpa [doCancel, List.filter_append, isArmOrSend] using harm
      · rcases hw : waitLoop a.evs (doSend (armAttempt s)) with ⟨rw1, s3⟩
        have hfr : s3.log.filter isArmOrSend = ssPairs (k + 1) :=
          (frame_filterLog (waitLoop_frame_of hw)).trans harm
        cases rw1 with
        | starved =>
            rw [wrg_cons_starved rest s hs hw]
            exact ⟨k + 1, hfr⟩
        | fatalDispatch c =>
            rw [wrg_cons_fatal rest s hs hw]
            exact ⟨k + 1, hfr⟩
        | outcome m =>
            by_cases hm : m = errTimeout
            · subst hm
              rw [wrg_cons_outcome_retry rest s hs hw]
              refine ih (k := k + 1) ?_
              simpa [List.filter_append, isArmOrSend] using hfr
            · rw [wrg_cons_outcome_done rest s hs hw hm]
              exact ⟨k + 1, hfr⟩

/-- The lazy allocation step at the top of write_read. -/
lemma write_read_eq (attempts : List Attempt) (s : EngState) :
    write_read attempts s =
      write_read_go attempts
        (if s.transferAllocated then s
         else { s with transferAllocated := true
                       allocs := s.allocs + 1
                       log := s.log ++ [Action.allocT] }) := rfl

/-- A normal return of hid_send_recv hands the caller exactly the expected
number of bytes, and they are exactly the bytes the completion callback
recorded in receive_buf. -/
lemma hsr_ok_reply {attempts : List Attempt} {rlength : Nat} {s : EngState}
    {r : List Nat} {s2 : EngState} (hlen : s.reply.length = rlength)
    (h : hid_send_recv attempts rlength s = (.ok r, s2)) :
    r.length = rlength ∧ r = s2.receive_buf.take rlength := by
  rcases hwr : write_read attempts s with ⟨wr, s1⟩
  unfold hid_send_recv at h
  rw [hwr] at h
  cases wr with
  | starved => simp at h
  | ret n =>
      dsimp only at h
      by_cases hneg : n < 0
      · simp [hneg] at h
      · by_cases hne : n = (rlength : Int)
        · have hne2 : ¬ n ≠ (rlength : Int) := not_not_intro hne
          rw [if_neg hneg, if_neg hne2, Prod.mk.injEq] at h
          obtain ⟨hr, hs2⟩ := h
          have hr2 : s1.reply = r := by simpa using hr
          rw [write_read_eq] at hwr
          have hnz := wrg_ret_ne_zero hwr
          have hpos : 0 < n := by omega
          obtain ⟨d, hd, hrep, hrec⟩ := wrg_ret_buffers hwr hpos
          have hrepS : s1.reply = memcpyBytes d s.reply := by
            rw [hrep]
            by_cases hta : s.transferAllocated <;> simp [hta]
          have hrecS : s1.receive_buf = memcpyBytes d s.receive_buf := by
            rw [hrec]
            by_cases hta : s.transferAllocated <;> simp [hta]
          have hdlen : d.length = rlength := by
            rw [hne] at hd
            exact_mod_cast hd.symm
          have hrd : s1.reply = d := by
            rw [hrepS, memcpyBytes]
            have hnil : s.reply.drop d.length = [] := by
              rw [hdlen, ← hlen, List.drop_length]
            rw [hnil, List.append_nil]
          constructor
          · rw [← hr2, hrd, hdlen]
          · rw [← hr2, ← hs2, hrd, hrecS, memcpyBytes, ← hdlen, List.take_left]
        · rw [if_neg hneg, if_pos hne] at h
          exact absurd (congrArg Prod.fst h) (by simp)

/-- hid_send_recv leaves the transfer allocated and performs no free; it
allocates exactly when the transfer did not yet exist. -/
lemma hsr_lifecycle {attempts : List Attempt} {rlength : Nat} {s : EngState}
    {res : HSRRes} {s2 : EngState}
    (h : hid_send_recv attempts rlength s = (res, s2)) :
    s2.allocs = s.allocs + (if s.transferAllocated then 0 else 1) ∧
      s2.frees = s.frees ∧ s2.transferAllocated = true ∧ s2.ctxOpen = s.ctxOpen := by
  rcases hwr : write_read attempts s with ⟨wr, s1⟩
  have hs1 : lifecycleOf s1 =
      lifecycleOf (if s.transferAllocated then s
        else { s with transferAllocated := true
                      allocs := s.allocs + 1
                      log := s.log ++ [Action.allocT] }) := by
    have := wrg_lifecycle attempts
      (if s.transferAllocated then s
        else { s with transferAllocated := true
                      allocs := s.allocs + 1
                      log := s.log ++ [Action.allocT] })
    rw [← write_read_eq, hwr] at this
    exact this
  have hfields : s1.allocs = s.allocs + (if s.transferAllocated then 0 else 1) ∧
      s1.frees = s.frees ∧ s1.transferAllocated = true ∧ s1.ctxOpen = s.ctxOpen := by
    by_cases hta : s.transferAllocated <;>
      simp [hta, lifecycleOf, Prod.ext_iff] at hs1 <;>
      simp [hta, hs1]
  have hs12 : s2 = s1 := by
    unfold hid_send_recv at h
    rw [hwr] at h
    cases wr with
    | starved => exact (congrArg Prod.snd h).symm
    | ret n =>
        dsimp only at h
        by_cases hneg : n < 0
        · rw [if_pos hneg] at h
          exact (congrArg Prod.snd h).symm
        · by_cases hne : n ≠ (rlength : Int)
          · rw [if_neg hneg, if_pos hne] at h
            exact (congrArg Prod.snd h).symm
          · rw [if_neg hneg, if_neg hne] at h
            exact (congrArg Prod.snd h).symm
  rw [hs12]
  exact hfields

/-- hid_send_recv never submits over an outstanding receive when entered
with none outstanding, and a normal return means the receive reached a
terminal outcome. -/
lemma hsr_ds {attempts : List Attempt} {rlength : Nat} {s : EngState}
    {res : HSRRes} {s2 : EngState} (hout : s.outstanding = false)
    (h : hid_send_recv attempts rlength s = (res, s2)) :
    s2.doubleSubmits = s.doubleSubmits ∧
      (∀ b : List Nat, res = .ok b → s2.outstanding = false) := by
  rcases hwr : write_read attempts s with ⟨wr, s1⟩
  have hwr2 := hwr
  rw [write_read_eq] at hwr2
  have hout0 : (if s.transferAllocated then s
      else { s with transferAllocated := true
                    allocs := s.allocs + 1
                    log := s.log ++ [Action.allocT] }).outstanding = false := by
    by_cases hta : s.transferAllocated <;> simp [hta, hout]
  have hds0 : (if s.transferAllocated then s
      else { s with transferAllocated := true
                    allocs := s.allocs + 1
                    log := s.log ++ [Action.allocT] }).doubleSubmits = s.doubleSubmits := by
    by_cases hta : s.transferAllocated <;> simp [hta]
  have hmain := wrg_outstanding hout0 hwr2
  unfold hid_send_recv at h
  rw [hwr] at h
  cases wr with
  | starved =>
      have hs12 : s1 = s2 := congrArg Prod.snd h
      have hres : HSRRes.starved = res := congrArg Prod.fst h
      refine ⟨by rw [← hs12, hmain.1, hds0], ?_⟩
      intro b hb
      rw [← hres] at hb
      exact absurd hb (by simp)
  | ret n =>
      dsimp only at h
      by_cases hneg : n < 0
      · rw [if_pos hneg] at h
        have hs12 : s1 = s2 := congrArg Prod.snd h
        have hres : HSRRes.exitFailure n = res := congrArg Prod.fst h
        refine ⟨by rw [← hs12, hmain.1, hds0], ?_⟩
        intro b hb
        rw [← hres] at hb
        exact absurd hb (by simp)
      · by_cases hne : n ≠ (rlength : Int)
        · rw [if_neg hneg, if_pos hne] at h
          have hs12 : s1 = s2 := congrArg Prod.snd h
          have hres : HSRRes.shortRead n rlength = res := congrArg Prod.fst h
          refine ⟨by rw [← hs12, hmain.1, hds0], ?_⟩
          intro b hb
          rw [← hres] at hb
          exact absurd hb (by simp)
        · rw [if_neg hneg, if_neg hne] at h
          have hs12 : s1 = s2 := congrArg Prod.snd h
          refine ⟨by rw [← hs12, hmain.1, hds0], ?_⟩
          intro b hb
          rw [← hs12]
          exact hmain.2 n rfl (by omega)

/-- Across a whole program run the double-submit counter never moves:
every submission happens with no receive outstanding, because a failed
call exits the process before any caller could issue another
transaction. -/
lemma runCalls_ds (calls : List CallScript) (s : EngState)
    (hout : s.outstanding = false) :
    (runCalls calls s).doubleSubmits = s.doubleSubmits := by
  induction calls generalizing s with
  | nil => rfl
  | cons c cs ih =>
      rcases hc : hid_send_recv c.attempts c.rlength { s with reply := c.reply0 }
        with ⟨res, s1⟩
      have hout1 : ({ s with reply := c.reply0 } : EngState).outstanding = false := by
        simpa using hout
      have hmain := hsr_ds hout1 hc
      have hds : s1.doubleSubmits = s.doubleSubmits := by simpa using hmain.1
      unfold runCalls
      rw [hc]
      cases res with
      | ok b =>
          dsimp only
          rw [ih s1 (hmain.2 b rfl), hds]
      | exitFailure n => exact hds
      | shortRead n L => exact hds
      | starved => exact hds

/-- Transfer lifecycle across a program run: no call ever frees, the
context stays open, the transfer is allocated by the first call only and
stays allocated. -/
lemma runCalls_lifecycle (calls : List CallScript) (s : EngState) :
    (runCalls calls s).frees = s.frees ∧
      (runCalls calls s).ctxOpen = s.ctxOpen ∧
      (runCalls calls s).allocs =
        (if calls.isEmpty then s.allocs
         else if s.transferAllocated then s.allocs else s.allocs + 1) ∧
      (runCalls calls s).transferAllocated = (s.transferAllocated || !calls.isEmpty) := by
  induction calls generalizing s with
  | nil => simp [runCalls]
  | cons c cs ih =>
      rcases hc : hid_send_recv c.attempts c.rlength { s with reply := c.reply0 }
        with ⟨res, s1⟩
      have hl := hsr_lifecycle hc
      have h1 : s1.allocs = s.allocs + (if s.transferAllocated then 0 else 1) := by
        simpa using hl.1
      have h2 : s1.frees = s.frees := by simpa using hl.2.1
      have h3 : s1.transferAllocated = true := hl.2.2.1
      have h4 : s1.ctxOpen = s.ctxOpen := by simpa using hl.2.2.2
      have hallocs : s1.allocs =
          (if s.transferAllocated then s.allocs else s.allocs + 1) := by
        rw [h1]
        by_cases hta : s.transferAllocated <;> simp [hta]
      unfold runCalls
      rw [hc]
      cases res with
      | ok b =>
          dsimp only
          obtain ⟨i1, i2, i3, i4⟩ := ih s1
          refine ⟨i1.trans h2, i2.trans h4, ?_, ?_⟩
          · rw [i3, h3, hallocs]
            simp
          · rw [i4, h3]
            simp
      | exitFailure n => exact ⟨h2, h4, by rw [hallocs]; simp, by rw [h3]; simp⟩
      | shortRead n L => exact ⟨h2, h4, by rw [hallocs]; simp, by rw [h3]; simp⟩
      | starved => exact ⟨h2, h4, by rw [hallocs]; simp, by rw [h3]; simp⟩

/-- A timed-out attempt restarts the transaction: exactly one
re-submission and one re-send happen before the outcome slot is examined
again, on the next scheduled attempt. -/
lemma timeout_step (rest : List Attempt) (s : EngState) :
    write_read_go (timeoutAttempt :: rest) s = write_read_go rest (retryStep s) := rfl

lemma ok_step (rest : List Attempt) (s : EngState) :
    write_read_go (okAttempt [1] :: rest) s = (.ret 1, okStep s) := rfl

/-- A trace with m timeouts then a completed reply terminates after m
retries, having submitted and sent m + 1 times: timeout retry is
unbounded, every count m is reachable. -/
lemma retry_run (m : Nat) (s : EngState) :
    (write_read_go (retryTrace m [1]) s).1 = .ret 1 ∧
      (write_read_go (retryTrace m [1]) s).2.retries = s.retries + m ∧
      (write_read_go (retryTrace m [1]) s).2.submits = s.submits + (m + 1) ∧
      (write_read_go (retryTrace m [1]) s).2.sends = s.sends + (m + 1) := by
  induction m generalizing s with
  | zero =>
      rw [show retryTrace 0 [1] = [okAttempt [1]] from rfl, ok_step [] s]
      simp [okStep]
  | succ k ih =>
      have hsucc : retryTrace (k + 1) [1] = timeoutAttempt :: retryTrace k [1] := by
        simp [retryTrace, List.replicate_succ]
      rw [hsucc, timeout_step]
      obtain ⟨i1, i2, i3, i4⟩ := ih (retryStep s)
      refine ⟨i1, ?_, ?_, ?_⟩
      · have hr : (retryStep s).retries = s.retries + 1 := rfl
        rw [i2, hr]
        omega
      · have hr : (retryStep s).submits = s.submits + 1 := rfl
        rw [i3, hr]
        omega
      · have hr : (retryStep s).sends = s.sends + 1 := rfl
        rw [i4, hr]
        omega

/-- When every dispatch result in the trace is non-negative or transient,
the wait loop never exits through the fatal-dispatch path. -/
lemma waitLoop_no_fatal {evs : List DispatchEv} {s : EngState}
    (hall : ∀ e ∈ evs, 0 ≤ e.res ∨ isTransient e.res = true)
    (c : Int) (s2 : EngState) : waitLoop evs s ≠ (.fatalDispatch c, s2) := by
  induction evs generalizing s with
  | nil =>
      by_cases h0 : s.nbytes_received = 0
      · rw [waitLoop_nil_starved s h0]
        simp
      · rw [waitLoop_done [] s h0]
        simp
  | cons e es ih =>
      by_cases h0 : s.nbytes_received = 0
      · have he := hall e (by simp)
        have hstep : waitLoop (e :: es) s = waitLoop es (deliver e s) := by
          apply waitLoop_cons_step e es s h0
          rcases he with h | h
          · exact Or.inl (by omega)
          · exact Or.inr h
        rw [hstep]
        exact ih (fun e2 he2 => hall e2 (by simp [he2]))
      · rw [waitLoop_done (e :: es) s h0]
        simp

/-- A trace made only of benign dispatch results whose callbacks are
absent or zero-length completions starves the wait loop: the slot never
leaves the sentinel and no outcome is ever observed. -/
lemma waitLoop_starved_benign {evs : List DispatchEv} {s : EngState}
    (h0 : s.nbytes_received = 0)
    (hall : ∀ e ∈ evs, (0 ≤ e.res ∨ isTransient e.res = true) ∧
        (e.cb = none ∨ e.cb = some (.completed, []))) :
    (waitLoop evs s).1 = .starved := by
  induction evs generalizing s with
  | nil => rw [waitLoop_nil_starved s h0]
  | cons e es ih =>
      obtain ⟨hres, hcb⟩ := hall e (by simp)
      have hstep : waitLoop (e :: es) s = waitLoop es (deliver e s) := by
        apply waitLoop_cons_step e es s h0
        rcases hres with h | h
        · exact Or.inl (by omega)
        · exact Or.inr h
      rw [hstep]
      have h0d : (deliver e s).nbytes_received = 0 := by
        obtain ⟨res, cb⟩ := e
        rcases hcb with h | h
        · simp only at h
          subst h
          rw [deliver_none]
          simpa using h0
        · simp only at h
          subst h
          rw [deliver_completed]
          simp
      exact ih h0d (fun e2 he2 => hall e2 (by simp [he2]))

/-- C1: for every request and every expected reply length, when execute
(hid_send_recv over write_read) returns normally it has placed exactly
rlength bytes in the reply area of the caller, and those bytes are exactly
the bytes the completion callback recorded in receive_buf for the attempt
whose outcome was a completion. -/
theorem execute_success_returns_recorded_bytes
    (attempts : List Attempt) (rlength : Nat) (s : EngState)
    (r : List Nat) (s2 : EngState) (hlen : s.reply.length = rlength)
    (h : hid_send_recv attempts rlength s = (.ok r, s2)) :
    r.length = rlength ∧ r = s2.receive_buf.take rlength :=
  hsr_ok_reply hlen h

/-- Witness for C1: a concrete completed transaction of 8 bytes. -/
theorem execute_success_returns_recorded_bytes_witness :
    (initState (List.replicate 8 0)).reply.length = 8 ∧
      ([1, 2, 3, 4, 5, 6, 7, 8] : List Nat).length = 8 ∧
      ([1, 2, 3, 4, 5, 6, 7, 8] : List Nat) =
        ((hid_send_recv [okAttempt [1, 2, 3, 4, 5, 6, 7, 8]] 8
            (initState (List.replicate 8 0))).2).receive_buf.take 8 := by
  have happ := execute_success_returns_recorded_bytes
    [okAttempt [1, 2, 3, 4, 5, 6, 7, 8]] 8 (initState (List.replicate 8 0))
    [1, 2, 3, 4, 5, 6, 7, 8]
    ((hid_send_recv [okAttempt [1, 2, 3, 4, 5, 6, 7, 8]] 8
        (initState (List.replicate 8 0))).2)
    (by decide) (by decide)
  exact ⟨by decide, happ.1, happ.2⟩

/-- C2 counterexample: the completion callback reports a COMPLETED
transfer with actual_length 0 while 8 bytes were expected — an
actual_length different from expected_reply_len — yet the call does not
report the short-read error: the zero is the no-outcome sentinel, so the
wait loop keeps dispatching (here through two further benign dispatch
calls) and never reaches the length check. -/
theorem length_mismatch_zero_counterexample :
    (hid_send_recv [zeroLenAttempt] 8 (initState (List.replicate 8 0))).1 =
        HSRRes.starved ∧
      HSRRes.starved ≠ HSRRes.shortRead 0 8 := by
  exact ⟨by decide, by decide⟩

/-- C2 amended: when the wait loop produced an outcome n with 0 ≤ n (a
COMPLETED callback with nonzero actual_length, zero being absorbed as the
sentinel) and n differs from the expected length, the call reports the
short read and exits instead of returning; and a normal return never hands
back a buffer of the wrong length. -/
theorem length_mismatch_reported (attempts : List Attempt) (rlength : Nat)
    (s : EngState) :
    (∀ (n : Int) (s1 : EngState), write_read attempts s = (.ret n, s1) →
        0 ≤ n → n ≠ (rlength : Int) →
        hid_send_recv attempts rlength s = (.shortRead n rlength, s1)) ∧
      (∀ (r : List Nat) (s2 : EngState), s.reply.length = rlength →
        hid_send_recv attempts rlength s = (.ok r, s2) → r.length = rlength) := by
  constructor
  · intro n s1 hwr hpos hne
    unfold hid_send_recv
    rw [hwr]
    dsimp only
    rw [if_neg (by omega), if_pos hne]
  · intro r s2 hlen h
    exact (hsr_ok_reply hlen h).1

/-- Witness for the amended C2: a completed reply of 5 bytes when 8 were
expected is reported as a short read of 5 against 8. -/
theorem length_mismatch_reported_witness :
    write_read [okAttempt [9, 9, 9, 9, 9]] (initState (List.replicate 8 0)) =
        (.ret 5,
          (write_read [okAttempt [9, 9, 9, 9, 9]] (initState (List.replicate 8 0))).2) ∧
      (0 : Int) ≤ 5 ∧ (5 : Int) ≠ ((8 : Nat) : Int) ∧
      hid_send_recv [okAttempt [9, 9, 9, 9, 9]] 8 (initState (List.replicate 8 0)) =
        (.shortRead 5 8,
          (write_read [okAttempt [9, 9, 9, 9, 9]] (initState (List.replicate 8 0))).2) := by
  refine ⟨by decide, by decide, by decide, ?_⟩
  exact (length_mismatch_reported [okAttempt [9, 9, 9, 9, 9]] 8
    (initState (List.replicate 8 0))).1 5 _ (by decide) (by decide) (by decide)

/-- C3: per attempt exactly one interrupt-receive submission and one
control-transfer send occur — a terminated write_read has performed
1 + retries of each, every TimedOut outcome having caused exactly one
re-submission and one re-send — and the number of timeout retries is
unbounded: every count m is realized by some trace that still succeeds. -/
theorem one_submit_one_send_per_attempt :
    (∀ (attempts : List Attempt) (r0 : List Nat) (n : Int) (s2 : EngState),
        write_read attempts (initState r0) = (.ret n, s2) →
        s2.submits = s2.retries + 1 ∧ s2.sends = s2.retries + 1) ∧
      (∀ m : Nat, ∃ s2 : EngState,
        write_read (retryTrace m [1]) (initState []) = (.ret 1, s2) ∧
        s2.retries = m ∧ s2.submits = m + 1 ∧ s2.sends = m + 1) := by
  constructor
  · intro attempts r0 n s2 h
    rw [write_read_eq] at h
    have hc := wrg_counts h
    simp [initState] at hc
    omega
  · intro m
    have hred : write_read (retryTrace m [1]) (initState []) =
        write_read_go (retryTrace m [1])
          { initState [] with transferAllocated := true
                              allocs := 1
                              log := [Action.allocT] } := rfl
    obtain ⟨f1, f2, f3, f4⟩ := retry_run m
      { initState [] with transferAllocated := true
                          allocs := 1
                          log := [Action.allocT] }
    refine ⟨(write_read_go (retryTrace m [1])
      { initState [] with transferAllocated := true
                          allocs := 1
                          log := [Action.allocT] }).2, ?_, ?_, ?_, ?_⟩
    · rw [hred, Prod.ext_iff]
      exact ⟨f1, rfl⟩
    · rw [f2]
      simp [initState]
    · rw [f3]
      simp [initState]
    · rw [f4]
      simp [initState]

/-- Witness for C3 at a concrete run with one timeout retry. -/
theorem one_submit_one_send_per_attempt_witness :
    ((write_read (retryTrace 1 [1]) (initState [])).2.submits =
        (write_read (retryTrace 1 [1]) (initState [])).2.retries + 1 ∧
      (write_read (retryTrace 1 [1]) (initState [])).2.sends =
        (write_read (retryTrace 1 [1]) (initState [])).2.retries + 1) ∧
      (∃ s2 : EngState,
        write_read (retryTrace 2 [1]) (initState []) = (.ret 1, s2) ∧
        s2.retries = 2 ∧ s2.submits = 3 ∧ s2.sends = 3) := by
  constructor
  · exact one_submit_one_send_per_attempt.1 (retryTrace 1 [1]) [] 1
      ((write_read (retryTrace 1 [1]) (initState [])).2) (by decide)
  · exact one_submit_one_send_per_attempt.2 2

/-- C4: in the wait loop, a dispatch result that is busy, timeout,
overflow or interrupted is ignored and the loop continues (such a trace
can never produce a fatal-dispatch exit), while every other negative
dispatch result is returned immediately as fatal, with the state exactly
as the one dispatch call left it. -/
theorem dispatch_transient_ignored_fatal_returned :
    (∀ (evs : List DispatchEv) (s : EngState) (c : Int) (s2 : EngState),
        waitLoop evs s = (.fatalDispatch c, s2) → c < 0 ∧ isTransient c = false) ∧
      (∀ (e : DispatchEv) (es : List DispatchEv) (s : EngState),
        s.nbytes_received = 0 → e.res < 0 → isTransient e.res = false →
        waitLoop (e :: es) s = (.fatalDispatch e.res, deliver e s)) ∧
      (∀ (evs : List DispatchEv) (s : EngState),
        (∀ e ∈ evs, 0 ≤ e.res ∨ isTransient e.res = true) →
        ∀ (c : Int) (s2 : EngState), waitLoop evs s ≠ (.fatalDispatch c, s2)) :=
  ⟨fun _ _ _ _ h => waitLoop_fatal_code h,
    fun e es s h0 h1 h2 => waitLoop_cons_fatal e es s h0 h1 h2,
    fun _ _ hall c s2 => waitLoop_no_fatal hall c s2⟩

/-- Witness for C4: a fatal code -5 is returned at once with further
events pending, and an all-transient trace exits without a fatal
dispatch. -/
theorem dispatch_transient_ignored_fatal_returned_witness :
    ((-5 : Int) < 0 ∧ isTransient (-5) = false) ∧
      waitLoop [{ res := -5, cb := none }, { res := 0, cb := none }] (initState []) =
        (.fatalDispatch (-5), deliver { res := -5, cb := none } (initState [])) ∧
      waitLoop [{ res := -6, cb := none }] (initState []) ≠
        (.fatalDispatch (-6), (waitLoop [{ res := -6, cb := none }] (initState [])).2) := by
  refine ⟨?_, ?_, ?_⟩
  · exact dispatch_transient_ignored_fatal_returned.1
      [{ res := -5, cb := none }, { res := 0, cb := none }] (initState []) (-5)
      ((waitLoop [{ res := -5, cb := none }, { res := 0, cb := none }] (initState [])).2)
      (by decide)
  · exact dispatch_transient_ignored_fatal_returned.2.1
      { res := -5, cb := none } [{ res := 0, cb := none }] (initState [])
      (by decide) (by decide) (by decide)
  · exact dispatch_transient_ignored_fatal_returned.2.2
      [{ res := -6, cb := none }] (initState []) (by decide) (-6)
      ((waitLoop [{ res := -6, cb := none }] (initState [])).2)

/-- C5: an attempt whose synchronous send fails cancels the just-armed
receive exactly once and returns the send-failure code -1; when every
scheduled send succeeds no path — dispatch error, length-mismatch
outcome, fatal callback outcome or starvation — performs any cancellation;
and in general the cancels counter grows by at most one, and only together
with the send-failure return. -/
theorem cancel_only_on_send_failure :
    (∀ (a : Attempt) (rest : List Attempt) (s : EngState), a.sendRes < 0 →
        write_read_go (a :: rest) s = (.ret (-1), doCancel (doSend (armAttempt s))) ∧
        (doCancel (doSend (armAttempt s))).cancels = s.cancels + 1) ∧
      (∀ (attempts : List Attempt) (s : EngState) (r : WRRes) (s2 : EngState),
        (∀ a ∈ attempts, 0 ≤ a.sendRes) →
        write_read_go attempts s = (r, s2) → s2.cancels = s.cancels) ∧
      (∀ (attempts : List Attempt) (s : EngState) (r : WRRes) (s2 : EngState),
        write_read_go attempts s = (r, s2) →
        s2.cancels = s.cancels ∨ (s2.cancels = s.cancels + 1 ∧ r = .ret (-1))) := by
  refine ⟨?_, fun _ _ _ _ hok h => wrg_cancels_ok hok h,
    fun _ _ _ _ h => wrg_cancels h⟩
  intro a rest s hs
  exact ⟨wrg_cons_sendfail rest s hs, by simp [doCancel, doSend, armAttempt]⟩

/-- Witness for C5: a failed send cancels once; a run whose send succeeds
but whose callback reports an input/output error cancels nothing. -/
theorem cancel_only_on_send_failure_witness :
    (write_read_go [sendFailAttempt] (initState []) =
        (.ret (-1), doCancel (doSend (armAttempt (initState [])))) ∧
      (doCancel (doSend (armAttempt (initState [])))).cancels =
        (initState []).cancels + 1) ∧
      ((write_read_go [stallAttempt] (initState [])).2).cancels =
        (initState []).cancels := by
  constructor
  · exact cancel_only_on_send_failure.1 sendFailAttempt [] (initState [])
      (by decide)
  · exact cancel_only_on_send_failure.2.1
      [stallAttempt] (initState [])
      (write_read_go [stallAttempt] (initState [])).1
      ((write_read_go [stallAttempt] (initState [])).2)
      (by decide) rfl

/-- C6: a Cancelled (-10), NoDevice (-4) or IOError (-1) outcome recorded
by the completion callback makes write_read return that code immediately:
the remaining scheduled attempts are not consumed, no further submission
or send happens beyond the single pair of this attempt, and no retry is
taken. -/
theorem fatal_outcome_terminates_immediately
    (a : Attempt) (rest : List Attempt) (s : EngState) (n : Int) (s2 : EngState)
    (hs : ¬ a.sendRes < 0)
    (hw : waitLoop a.evs (doSend (armAttempt s)) = (.outcome n, s2))
    (hn : n = errInterrupted ∨ n = errNoDevice ∨ n = errIo) :
    write_read_go (a :: rest) s = (.ret n, s2) ∧
      s2.submits = s.submits + 1 ∧ s2.sends = s.sends + 1 ∧
      s2.retries = s.retries := by
  have hm : n ≠ errTimeout := by
    rcases hn with h | h | h <;> subst h <;> decide
  have hfr := waitLoop_frame_of hw
  refine ⟨wrg_cons_outcome_done rest s hs hw hm, ?_, ?_, ?_⟩
  · rw [frame_submits hfr]
    simp [doSend, armAttempt]
  · rw [frame_sends hfr]
    simp [doSend, armAttempt]
  · rw [frame_retries hfr]
    simp [doSend, armAttempt]

/-- Witness for C6: a NO_DEVICE outcome returns -4 at once even though a
further attempt was scheduled. -/
theorem fatal_outcome_terminates_immediately_witness :
    write_read_go (noDeviceAttempt :: [okAttempt [1]]) (initState []) =
        (.ret errNoDevice,
          (waitLoop noDeviceAttempt.evs (doSend (armAttempt (initState [])))).2) ∧
      (waitLoop noDeviceAttempt.evs (doSend (armAttempt (initState [])))).2.submits =
        (initState []).submits + 1 ∧
      (waitLoop noDeviceAttempt.evs (doSend (armAttempt (initState [])))).2.sends =
        (initState []).sends + 1 ∧
      (waitLoop noDeviceAttempt.evs (doSend (armAttempt (initState [])))).2.retries =
        (initState []).retries :=
  fatal_outcome_terminates_immediately noDeviceAttempt [okAttempt [1]] (initState [])
    errNoDevice _ (by decide) (by decide) (Or.inr (Or.inl rfl))

/-- C7: in every attempt the asynchronous receive is armed strictly before
the synchronous send: in any run of write_read the submit and send entries
of the action log form complete submit-then-send pairs, so a send never
occurs while no receive has just been armed. -/
theorem submit_before_send (attempts : List Attempt) (r0 : List Nat)
    (res : WRRes) (s2 : EngState)
    (h : write_read attempts (initState r0) = (res, s2)) :
    ∃ k : Nat, s2.log.filter isArmOrSend = ssPairs k := by
  by_cases hta : (initState r0).transferAllocated = true
  · simp [initState] at hta
  · rw [write_read_eq, if_neg hta] at h
    have h0 : ({ initState r0 with
        transferAllocated := true
        allocs := (initState r0).allocs + 1
        log := (initState r0).log ++ [Action.allocT] } : EngState).log.filter
          isArmOrSend = ssPairs 0 := by
      simp [initState, isArmOrSend, ssPairs]
    have hlog := @wrg_log attempts _ _ h0
    rw [h] at hlog
    simpa using hlog

/-- Witness for C7: the log of a completed one-attempt run has its
submit/send entries in one complete pair. -/
theorem submit_before_send_witness :
    ∃ k : Nat,
      ((write_read [okAttempt [1]] (initState [])).2).log.filter isArmOrSend =
        ssPairs k :=
  submit_before_send [okAttempt [1]] []
    (write_read [okAttempt [1]] (initState [])).1
    ((write_read [okAttempt [1]] (initState [])).2) rfl

/-- C8: at most one asynchronous receive is outstanding on the persistent
handle in every reachable state: across any whole program run every
submission happens only after the previously submitted receive reached a
terminal outcome, so the double-submit counter stays 0.  The paths that
leave a receive pending — the send-failure return after its
fire-and-forget cancel, and the fatal dispatch-error return — exit the
process in hid_send_recv, so no later call to execute can submit over
them. -/
theorem single_outstanding_receive (calls : List CallScript) (r0 : List Nat) :
    (runCalls calls (initState r0)).doubleSubmits = 0 :=
  (runCalls_ds calls (initState r0) rfl).trans rfl

/-- C9: the persistent transfer is allocated exactly once, lazily by the
first call, never reallocated by later calls, and freed exactly once and
only by hid_close; no call of the run itself ever frees it. -/
theorem transfer_allocated_once_freed_at_close
    (calls : List CallScript) (r0 : List Nat) :
    (runCalls calls (initState r0)).frees = 0 ∧
      (runCalls calls (initState r0)).allocs = (if calls.isEmpty then 0 else 1) ∧
      (hid_close (runCalls calls (initState r0))).frees =
        (runCalls calls (initState r0)).allocs ∧
      (hid_close (runCalls calls (initState r0))).allocs =
        (runCalls calls (initState r0)).allocs ∧
      (hid_close (runCalls calls (initState r0))).transferAllocated = false := by
  obtain ⟨h1, h2, h3, h4⟩ := runCalls_lifecycle calls (initState r0)
  have hfrees : (runCalls calls (initState r0)).frees = 0 := by
    rw [h1]
    rfl
  have hopen : (runCalls calls (initState r0)).ctxOpen = true := by
    rw [h2]
    rfl
  have hallocs : (runCalls calls (initState r0)).allocs =
      (if calls.isEmpty then 0 else 1) := by
    rw [h3]
    by_cases hc : calls.isEmpty <;> simp [hc, initState]
  have hta : (runCalls calls (initState r0)).transferAllocated = !calls.isEmpty := by
    rw [h4]
    simp [initState]
  refine ⟨hfrees, hallocs, ?_, ?_, ?_⟩ <;>
    by_cases hc : calls.isEmpty <;>
      simp [hid_close, hopen, hta, hc, hfrees, hallocs]

/-- C10: the outcome slot uses 0 as its no-outcome-yet sentinel — the
fresh engine state and every (re-)arming of an attempt store 0 — and a
COMPLETED transfer with actual_length 0 writes that same 0.  Consequently
write_read never returns 0 (every successful return is strictly positive,
never an empty reply), and an attempt whose callback is a zero-length
completion leaves the wait loop dispatching without ever observing a
terminal outcome. -/
theorem zero_length_reply_indistinguishable :
    (∀ r0 : List Nat, (initState r0).nbytes_received = 0) ∧
      (∀ s : EngState, (armAttempt s).nbytes_received = 0) ∧
      (∀ (buf : List Nat) (s : EngState),
        (read_callback .completed buf 0 s).nbytes_received = 0) ∧
      (∀ (attempts : List Attempt) (s : EngState) (n : Int) (s2 : EngState),
        write_read attempts s = (.ret n, s2) → n ≠ 0) ∧
      (∀ (evs : List DispatchEv) (s : EngState), s.nbytes_received = 0 →
        (∀ e ∈ evs, (0 ≤ e.res ∨ isTransient e.res = true) ∧
            (e.cb = none ∨ e.cb = some (.completed, []))) →
        (waitLoop evs s).1 = .starved) := by
  refine ⟨fun _ => rfl, fun _ => rfl, fun _ _ => rfl, ?_,
    fun _ _ h0 hall => waitLoop_starved_benign h0 hall⟩
  intro attempts s n s2 h
  rw [write_read_eq] at h
  exact wrg_ret_ne_zero h

/-- Witness for C10: a concrete successful run returns a nonzero count,
and the concrete zero-length-completion attempt starves its wait loop. -/
theorem zero_length_reply_indistinguishable_witness :
    (1 : Int) ≠ 0 ∧
      (waitLoop zeroLenAttempt.evs
        (doSend (armAttempt (initState (List.replicate 8 0))))).1 =
          WaitRes.starved := by
  constructor
  · exact zero_length_reply_indistinguishable.2.2.2.1 [okAttempt [1]] (initState [])
      1 ((write_read [okAttempt [1]] (initState [])).2) (by decide)
  · exact zero_length_reply_indistinguishable.2.2.2.2 zeroLenAttempt.evs
      (doSend (armAttempt (initState (List.replicate 8 0)))) (by decide) (by decide)

end HidLibusb
